import Mathlib

/-!
Verification of the Liquid Time-Stochasticity (LTS) recurrent cell
implemented in `src/lts.py`.

The cell's numeric core is embedded shallowly:

* scalars are modelled as exact rationals (`ℚ`); the tensor runtime's
  sigmoid primitive (`tf.nn.sigmoid`) is an external collaborator, so the
  pipeline definitions take it as an explicit function parameter `sig`,
  and all structural theorems hold for every such activation;
* the boundedness property of the gating nonlinearity itself is proved
  separately over `ℝ` with the genuine logistic sigmoid;
* a tensor is a shape (list of dimensions) together with its flat
  row-major data, which lets us model `tf.reshape` faithfully;
* vectors and matrices inside the core are total functions on `Fin`.

Parameter fields keep the names of the Python attributes (with the
leading underscore of private helpers dropped).
-/

/-- A tensor of the external array runtime: a shape together with the
flat row-major data.  Only rank-2 states of shape `[1, units]` flow
through the cell, but keeping the shape explicit lets us model the
`tf.reshape` call of the Euler–Maruyama loop. -/
structure Tensor where
  shape : List ℕ
  data : List ℚ
deriving DecidableEq, Repr

/-- Model of `tf.reshape t s`: succeeds iff the number of elements
matches the product of the target dimensions, and then reinterprets the
same flat data under the new shape. -/
def tfReshape (t : Tensor) (s : List ℕ) : Option Tensor :=
  if t.data.length = s.prod then some ⟨s, t.data⟩ else none

/-- Model of Python `int` truncation applied to a rational scalar
(the code computes `int(self._time_step)` as a reshape dimension).
Truncation towards zero, landing in `ℕ` because shape dimensions are
natural numbers. -/
def pyInt (q : ℚ) : ℕ := (Rat.floor q).toNat

/-- Learnable parameters and solver constants of one `LTSCell` with
`inS` input features and `u` units, exactly the variables created by
`_init_variables` plus the two scalar constants set in `__init__`
(`_time_step = 1.0` and `_sde_solver_unfolds = 6`). -/
structure LTSCell (inS u : ℕ) where
  sensory_mu : Fin inS → Fin u → ℚ
  sensory_sigma : Fin inS → Fin u → ℚ
  sensory_W : Fin inS → Fin u → ℚ
  sensory_erev : Fin inS → Fin u → ℚ
  mu : Fin u → Fin u → ℚ
  sigma : Fin u → Fin u → ℚ
  W : Fin u → Fin u → ℚ
  erev : Fin u → Fin u → ℚ
  brownian_motion : Fin u → ℚ
  vleak : Fin u → ℚ
  gleak : Fin u → ℚ
  cm_t : Fin u → ℚ
  time_step : ℚ
  sde_solver_unfolds : ℕ

/-- Default number of SDE solver sub-steps, from `__init__`
(`self._sde_solver_unfolds = 6`). -/
def defaultUnfolds : ℕ := 6

/-- Default integration step size, from `__init__`
(`self._time_step = 1.0`). -/
def defaultTimeStep : ℚ := 1

/-- The gating function `_sigmoid(v_pre, mu, sigma)`: reshape broadcasts
`v` across the `units` axis, so entry `(i, j)` of the result is
`sig (sigma i j * (v i - mu i j))`.  Generic in the scalar type so that
the same definition serves the exact-rational pipeline and the real
logistic instantiation. -/
def sigmoidGate {α : Type} [Mul α] [Sub α] {n m : ℕ} (sig : α → α)
    (v : Fin n → α) (mu sigma : Fin n → Fin m → α) : Fin n → Fin m → α :=
  fun i j => sig (sigma i j * (v i - mu i j))

/-- Sensory conductance activation
`sensory_W * _sigmoid(inputs, sensory_mu, sensory_sigma)` from
`_sde_solver_drift`. -/
def sensory_w_activation {inS u : ℕ} (sig : ℚ → ℚ) (cfg : LTSCell inS u)
    (inputs : Fin inS → ℚ) : Fin inS → Fin u → ℚ :=
  fun i j => cfg.sensory_W i j * sigmoidGate sig inputs cfg.sensory_mu cfg.sensory_sigma i j

/-- Sensory numerator contribution
`reduce_sum(sensory_w_activation * sensory_erev, axis = 1)`: the sum runs
over the input-feature axis (axis 1 of the batched `[1, inS, u]`
activation). -/
def w_numerator_sensory {inS u : ℕ} (sig : ℚ → ℚ) (cfg : LTSCell inS u)
    (inputs : Fin inS → ℚ) : Fin u → ℚ :=
  fun j => ∑ i, sensory_w_activation sig cfg inputs i j * cfg.sensory_erev i j

/-- Sensory denominator contribution
`reduce_sum(sensory_w_activation, axis = 1)`. -/
def w_denominator_sensory {inS u : ℕ} (sig : ℚ → ℚ) (cfg : LTSCell inS u)
    (inputs : Fin inS → ℚ) : Fin u → ℚ :=
  fun j => ∑ i, sensory_w_activation sig cfg inputs i j

/-- One iteration of the inner conductance-balance loop of
`_sde_solver_drift`, with the (loop-invariant) sensory contributions
`wns`/`wds` passed in:

`v_pre := (cm_t * v_pre + gleak * vleak + w_numerator) / (cm_t + gleak + w_denominator)`

where `w_numerator = reduce_sum(W * sigmoid(v_pre) * erev, axis 1) + wns`
and `w_denominator = reduce_sum(W * sigmoid(v_pre), axis 1) + wds`. -/
def conductance_update {inS u : ℕ} (sig : ℚ → ℚ) (cfg : LTSCell inS u)
    (wns wds : Fin u → ℚ) (v_pre : Fin u → ℚ) : Fin u → ℚ :=
  fun j =>
    (cfg.cm_t j * v_pre j + cfg.gleak j * cfg.vleak j
        + ((∑ i, (cfg.W i j * sigmoidGate sig v_pre cfg.mu cfg.sigma i j) * cfg.erev i j) + wns j))
      / (cfg.cm_t j + cfg.gleak j
        + ((∑ i, cfg.W i j * sigmoidGate sig v_pre cfg.mu cfg.sigma i j) + wds j))

/-- The inner `for _ in range(...)` loop of `_sde_solver_drift`:
`n` successive conductance-balance updates of `v_pre`. -/
def driftLoop {inS u : ℕ} (sig : ℚ → ℚ) (cfg : LTSCell inS u)
    (wns wds : Fin u → ℚ) : ℕ → (Fin u → ℚ) → Fin u → ℚ
  | 0, v => v
  | n + 1, v => driftLoop sig cfg wns wds n (conductance_update sig cfg wns wds v)

/-- Extraction `v_pre = states[0]` of the drift routine: the first row of
a `[1, units]` state tensor, i.e. its flat data read as a vector of
length `u` (out-of-range reads default to `0`; theorems only ever apply
this to well-shaped states). -/
def statesRow0 (u : ℕ) (t : Tensor) : Fin u → ℚ :=
  fun j => t.data.getD j 0

/-- Vector-level `_sde_solver_drift`: the sensory activations are formed
and summed once, then the conductance loop runs `sde_solver_unfolds`
times starting from `v_pre`. -/
def sde_solver_drift_vec {inS u : ℕ} (sig : ℚ → ℚ) (cfg : LTSCell inS u)
    (inputs : Fin inS → ℚ) (v_pre : Fin u → ℚ) : Fin u → ℚ :=
  driftLoop sig cfg (w_numerator_sensory sig cfg inputs) (w_denominator_sensory sig cfg inputs)
    cfg.sde_solver_unfolds v_pre

/-- `_sde_solver_drift(inputs, states)`: takes `v_pre = states[0]` and
runs the conductance solve. -/
def sde_solver_drift {inS u : ℕ} (sig : ℚ → ℚ) (cfg : LTSCell inS u)
    (inputs : Fin inS → ℚ) (states : Tensor) : Fin u → ℚ :=
  sde_solver_drift_vec sig cfg inputs (statesRow0 u states)

/-- `_sde_solver_diffusion(inputs, states)`: constant `1.0` regardless of
the arguments. -/
def sde_solver_diffusion {inS : ℕ} (_inputs : Fin inS → ℚ) (_states : Tensor) : ℚ :=
  1

/-- One outer iteration of `_sde_solver_euler_maruyama`, with the noise
vector `w` as an explicit argument:
`states + drift * time_step + diffusion * w` followed by
`tf.reshape(states, [int(time_step), units])`. -/
def em_step_noise {inS u : ℕ} (sig : ℚ → ℚ) (cfg : LTSCell inS u)
    (inputs : Fin inS → ℚ) (w : Fin u → ℚ) (states : Tensor) : Option Tensor :=
  tfReshape
    ⟨states.shape,
      List.ofFn fun j =>
        statesRow0 u states j
          + sde_solver_drift sig cfg inputs states j * cfg.time_step
          + sde_solver_diffusion inputs states * w j⟩
    [pyInt cfg.time_step, u]

/-- One outer iteration of `_sde_solver_euler_maruyama` as written in the
source: the noise vector is the stored `_brownian_motion`. -/
def em_step {inS u : ℕ} (sig : ℚ → ℚ) (cfg : LTSCell inS u)
    (inputs : Fin inS → ℚ) (states : Tensor) : Option Tensor :=
  em_step_noise sig cfg inputs cfg.brownian_motion states

/-- The outer loop of `_sde_solver_euler_maruyama`, generalised to an
arbitrary per-iteration noise schedule `noise` (iteration `k` of `n` uses
`noise k`).  The textbook Euler–Maruyama scheme would draw fresh noise
each iteration; the source instantiates this with a constant schedule. -/
def em_loop_noise {inS u : ℕ} (sig : ℚ → ℚ) (cfg : LTSCell inS u)
    (inputs : Fin inS → ℚ) (noise : ℕ → Fin u → ℚ) : ℕ → Tensor → Option Tensor
  | 0, states => some states
  | n + 1, states =>
      (em_step_noise sig cfg inputs (noise 0) states).bind
        (em_loop_noise sig cfg inputs (fun k => noise (k + 1)) n)

/-- The outer loop of `_sde_solver_euler_maruyama` as written: every
iteration adds the same stored Brownian vector. -/
def em_loop {inS u : ℕ} (sig : ℚ → ℚ) (cfg : LTSCell inS u)
    (inputs : Fin inS → ℚ) : ℕ → Tensor → Option Tensor
  | 0, states => some states
  | n + 1, states => (em_step sig cfg inputs states).bind (em_loop sig cfg inputs n)

/-- `_sde_solver_euler_maruyama(inputs, states)`: `sde_solver_unfolds`
outer iterations of the Euler–Maruyama update. -/
def sde_solver_euler_maruyama {inS u : ℕ} (sig : ℚ → ℚ) (cfg : LTSCell inS u)
    (inputs : Fin inS → ℚ) (states : Tensor) : Option Tensor :=
  em_loop sig cfg inputs cfg.sde_solver_unfolds states

/-- The full mutable state of an `LTSCell` instance after `build`: the
built parameters, plus the two lazily created affine input-mapping
variables (`None` in Python until the first call of
`_map_weights_and_biases`). -/
structure CellState (inS u : ℕ) where
  params : LTSCell inS u
  input_weights : Option (Fin inS → ℚ)
  input_biases : Option (Fin inS → ℚ)

/-- `_map_weights_and_biases(inputs)`: creates the weight vector (all
ones) and bias vector (all zeros) if absent, then returns the mapped
inputs `inputs * weights + biases` together with the updated cell
state. -/
def map_weights_and_biases {inS u : ℕ} (cs : CellState inS u)
    (inputs : Fin inS → ℚ) : (Fin inS → ℚ) × CellState inS u :=
  let w := cs.input_weights.getD fun _ => 1
  let b := cs.input_biases.getD fun _ => 0
  ⟨fun i => inputs i * w i + b i, ⟨cs.params, some w, some b⟩⟩

/-- `call(inputs, states)`: maps the inputs, runs the Euler–Maruyama
solver, and returns `(output, next_state)` with both components equal to
the solver result, together with the (possibly lazily extended) cell
state. -/
def call {inS u : ℕ} (sig : ℚ → ℚ) (cs : CellState inS u)
    (inputs : Fin inS → ℚ) (states : Tensor) :
    Option (Tensor × Tensor × CellState inS u) :=
  let m := map_weights_and_biases cs inputs
  (sde_solver_euler_maruyama sig cs.params m.1 states).map fun ns => ⟨ns, ns, m.2⟩

/-- Inner-loop instrumentation: `driftLoop` carrying a counter that is
incremented at each conductance-balance update. -/
def driftLoopCounted {inS u : ℕ} (sig : ℚ → ℚ) (cfg : LTSCell inS u)
    (wns wds : Fin u → ℚ) : ℕ → (Fin u → ℚ) × ℕ → (Fin u → ℚ) × ℕ
  | 0, p => p
  | n + 1, p => driftLoopCounted sig cfg wns wds n ⟨conductance_update sig cfg wns wds p.1, p.2 + 1⟩

/-- Vector-level view of one outer Euler–Maruyama iteration on a
well-shaped `[1, units]` state: the update formula
`state + drift * time_step + diffusion * brownian` read off on the flat
data, before the (shape-only) reshape. -/
def em_step_vec {inS u : ℕ} (sig : ℚ → ℚ) (cfg : LTSCell inS u)
    (inputs : Fin inS → ℚ) (v : Fin u → ℚ) : Fin u → ℚ :=
  fun j =>
    v j + sde_solver_drift_vec sig cfg inputs v j * cfg.time_step
      + sde_solver_diffusion inputs (Tensor.mk [1, u] (List.ofFn v)) * cfg.brownian_motion j

/-- Outer-loop instrumentation: the vector-level Euler–Maruyama loop
threading the inner-update counter through every drift computation. -/
def em_loop_counted {inS u : ℕ} (sig : ℚ → ℚ) (cfg : LTSCell inS u)
    (inputs : Fin inS → ℚ) : ℕ → (Fin u → ℚ) × ℕ → (Fin u → ℚ) × ℕ
  | 0, p => p
  | n + 1, p =>
      em_loop_counted sig cfg inputs n
        (let d := driftLoopCounted sig cfg (w_numerator_sensory sig cfg inputs)
            (w_denominator_sensory sig cfg inputs) cfg.sde_solver_unfolds ⟨p.1, p.2⟩
         ⟨fun j =>
            p.1 j + d.1 j * cfg.time_step
              + sde_solver_diffusion inputs (Tensor.mk [1, u] (List.ofFn p.1)) * cfg.brownian_motion j,
          d.2⟩)

/-- Number of inner conductance-balance updates executed by one full
solver call, read off the instrumented semantics. -/
def innerUpdateCount {inS u : ℕ} (sig : ℚ → ℚ) (cfg : LTSCell inS u)
    (inputs : Fin inS → ℚ) (v : Fin u → ℚ) : ℕ :=
  (em_loop_counted sig cfg inputs cfg.sde_solver_unfolds ⟨v, 0⟩).2

/-- The logistic sigmoid over the reals, the mathematical function
computed by the runtime primitive `tf.nn.sigmoid`. -/
noncomputable def realSigmoid (x : ℝ) : ℝ :=
  1 / (1 + Real.exp (-x))

/-- A concrete activation standing in for the runtime sigmoid primitive
in concrete evaluations. -/
def exampleSig : ℚ → ℚ := fun x => x

/-- A concrete single-unit, single-input cell with zero weight matrices,
zero Brownian vector, unit capacitance and leak conductance, and the
default solver constants. -/
def exampleCell : LTSCell 1 1 :=
  ⟨fun _ _ => 0, fun _ _ => 0, fun _ _ => 0, fun _ _ => 0,
   fun _ _ => 0, fun _ _ => 0, fun _ _ => 0, fun _ _ => 0,
   fun _ => 0, fun _ => 0, fun _ => 1, fun _ => 1,
   defaultTimeStep, defaultUnfolds⟩

/-- The `exampleCell` with a single SDE solver sub-step. -/
def exampleCellOne : LTSCell 1 1 :=
  ⟨fun _ _ => 0, fun _ _ => 0, fun _ _ => 0, fun _ _ => 0,
   fun _ _ => 0, fun _ _ => 0, fun _ _ => 0, fun _ _ => 0,
   fun _ => 0, fun _ => 0, fun _ => 1, fun _ => 1,
   defaultTimeStep, 1⟩

/-- A freshly built cell state for `exampleCell`: the input mapping
variables are not yet created. -/
def exampleCellState : CellState 1 1 := ⟨exampleCell, none, none⟩

/-- A concrete `[1, 1]` state tensor. -/
def exampleState : Tensor := ⟨[1, 1], [0]⟩

/-- A concrete input vector. -/
def exampleInput : Fin 1 → ℚ := fun _ => 0

/-! ## Helper lemmas -/

/-- The inner drift loop is the `n`-fold iterate of one
conductance-balance update. -/
theorem driftLoop_eq_iterate {inS u : ℕ} (sig : ℚ → ℚ) (cfg : LTSCell inS u)
    (wns wds : Fin u → ℚ) (n : ℕ) (v : Fin u → ℚ) :
    driftLoop sig cfg wns wds n v = (conductance_update sig cfg wns wds)^[n] v := by
  induction n generalizing v with
  | zero => rfl
  | succ n ih =>
      rw [driftLoop, ih, Function.iterate_succ_apply]

/-- Reading back the first row of a `[1, u]` tensor built from a vector
recovers the vector. -/
theorem statesRow0_ofFn {u : ℕ} (sh : List ℕ) (v : Fin u → ℚ) :
    statesRow0 u ⟨sh, List.ofFn v⟩ = v := by
  funext j
  have hj : (j : ℕ) < (List.ofFn v).length := by
    simp [j.isLt]
  simp [statesRow0, List.getD_eq_getElem _ _ hj]

/-- Any list of length `u` is the table of its own entries. -/
theorem eq_ofFn_of_length {l : List ℚ} {u : ℕ} (h : l.length = u) :
    l = List.ofFn fun j : Fin u => l.getD j 0 := by
  subst h
  conv_lhs => rw [(List.ofFn_getElem l).symm]
  refine congrArg _ (funext fun j => ?_)
  simp [List.getD_eq_getElem _ _ j.isLt]

/-- Truncating the default step size `1.0` to an integer dimension gives
`1`. -/
theorem pyInt_one : pyInt 1 = 1 := rfl

/-- With unit step size, one outer Euler–Maruyama iteration on a
well-shaped state succeeds and computes the vector-level update. -/
theorem em_step_ofFn {inS u : ℕ} (sig : ℚ → ℚ) (cfg : LTSCell inS u)
    (inputs : Fin inS → ℚ) (v : Fin u → ℚ) (hdt : cfg.time_step = 1) (sh : List ℕ) :
    em_step sig cfg inputs ⟨sh, List.ofFn v⟩
      = some ⟨[1, u], List.ofFn (em_step_vec sig cfg inputs v)⟩ := by
  rw [em_step, em_step_noise, tfReshape]
  rw [hdt, pyInt_one]
  simp only [List.length_ofFn, List.prod_cons, List.prod_nil, one_mul, mul_one, if_pos rfl]
  refine congrArg some (congrArg _ ?_)
  refine congrArg _ (funext fun j => ?_)
  rw [em_step_vec, sde_solver_drift, statesRow0_ofFn, hdt]
  simp [sde_solver_diffusion]

/-- With unit step size, the outer loop on a well-shaped `[1, u]` state
succeeds and computes the `n`-fold iterate of the vector-level update. -/
theorem em_loop_ofFn {inS u : ℕ} (sig : ℚ → ℚ) (cfg : LTSCell inS u)
    (inputs : Fin inS → ℚ) (hdt : cfg.time_step = 1) (n : ℕ) (v : Fin u → ℚ) :
    em_loop sig cfg inputs n ⟨[1, u], List.ofFn v⟩
      = some ⟨[1, u], List.ofFn ((em_step_vec sig cfg inputs)^[n] v)⟩ := by
  induction n generalizing v with
  | zero => rfl
  | succ n ih =>
      rw [em_loop, em_step_ofFn sig cfg inputs v hdt, Option.some_bind, ih,
        Function.iterate_succ_apply]

/-- The solver on any well-shaped `[1, u]` state: existence form of
`em_loop_ofFn`, with the state given by shape and data length rather
than as an explicit table. -/
theorem sde_solver_euler_maruyama_eq {inS u : ℕ} (sig : ℚ → ℚ) (cfg : LTSCell inS u)
    (inputs : Fin inS → ℚ) (st : Tensor) (hdt : cfg.time_step = 1)
    (hsh : st.shape = [1, u]) (hlen : st.data.length = u) :
    sde_solver_euler_maruyama sig cfg inputs st
      = some ⟨[1, u],
          List.ofFn ((em_step_vec sig cfg inputs)^[cfg.sde_solver_unfolds]
            (statesRow0 u st))⟩ := by
  have hst : st = ⟨[1, u], List.ofFn fun j : Fin u => st.data.getD j 0⟩ := by
    cases st with
    | mk sh d =>
        simp only at hsh hlen
        rw [hsh]
        exact congrArg _ (eq_ofFn_of_length hlen)
  rw [sde_solver_euler_maruyama]
  conv_lhs => rw [hst]
  rw [em_loop_ofFn sig cfg inputs hdt]
  refine congrArg some (congrArg _ (congrArg _ (congrArg _ ?_)))
  rfl

/-- The instrumented inner loop computes the uninstrumented result and
increments the counter once per update. -/
theorem driftLoopCounted_eq {inS u : ℕ} (sig : ℚ → ℚ) (cfg : LTSCell inS u)
    (wns wds : Fin u → ℚ) (n : ℕ) (v : Fin u → ℚ) (c : ℕ) :
    driftLoopCounted sig cfg wns wds n ⟨v, c⟩
      = ⟨driftLoop sig cfg wns wds n v, c + n⟩ := by
  induction n generalizing v c with
  | zero => rfl
  | succ n ih =>
      rw [driftLoopCounted, driftLoop, ih]
      refine congrArg _ ?_
      omega

/-- The instrumented outer loop computes the vector-level iterate and
performs `sde_solver_unfolds` inner updates per outer iteration. -/
theorem em_loop_counted_eq {inS u : ℕ} (sig : ℚ → ℚ) (cfg : LTSCell inS u)
    (inputs : Fin inS → ℚ) (n : ℕ) (v : Fin u → ℚ) (c : ℕ) :
    em_loop_counted sig cfg inputs n ⟨v, c⟩
      = ⟨(em_step_vec sig cfg inputs)^[n] v, c + n * cfg.sde_solver_unfolds⟩ := by
  induction n generalizing v c with
  | zero => simp [em_loop_counted]
  | succ n ih =>
      rw [em_loop_counted]
      simp only [driftLoopCounted_eq]
      rw [ih]
      refine congrArg₂ _ ?_ (by ring)
      rw [Function.iterate_succ_apply]
      rfl

/-- The source's outer loop is the generalised noise-schedule loop run on
the constant schedule that repeats the stored Brownian vector. -/
theorem em_loop_eq_constant_noise {inS u : ℕ} (sig : ℚ → ℚ) (cfg : LTSCell inS u)
    (inputs : Fin inS → ℚ) (n : ℕ) (st : Tensor) :
    em_loop sig cfg inputs n st
      = em_loop_noise sig cfg inputs (fun _ => cfg.brownian_motion) n st := by
  induction n generalizing st with
  | zero => rfl
  | succ n ih =>
      rw [em_loop, em_loop_noise]
      refine congrArg _ (funext fun t => ?_)
      exact ih t

/-- Full characterisation of one `call` on a well-shaped state: the
solver output is duplicated into `(output, next_state)` and the cell
state keeps its parameters, with the affine mapping variables now
populated. -/
theorem call_eq {inS u : ℕ} (sig : ℚ → ℚ) (cs : CellState inS u)
    (inputs : Fin inS → ℚ) (st : Tensor) (hdt : cs.params.time_step = 1)
    (hsh : st.shape = [1, u]) (hlen : st.data.length = u) :
    call sig cs inputs st
      = some ⟨⟨[1, u],
            List.ofFn ((em_step_vec sig cs.params
              (fun i => inputs i * (cs.input_weights.getD fun _ => 1) i
                + (cs.input_biases.getD fun _ => 0) i))^[cs.params.sde_solver_unfolds]
              (statesRow0 u st))⟩,
          ⟨[1, u],
            List.ofFn ((em_step_vec sig cs.params
              (fun i => inputs i * (cs.input_weights.getD fun _ => 1) i
                + (cs.input_biases.getD fun _ => 0) i))^[cs.params.sde_solver_unfolds]
              (statesRow0 u st))⟩,
          ⟨cs.params, some (cs.input_weights.getD fun _ => 1),
            some (cs.input_biases.getD fun _ => 0)⟩⟩ := by
  rw [call]
  simp only [map_weights_and_biases]
  rw [sde_solver_euler_maruyama_eq sig cs.params _ st hdt hsh hlen]
  rfl

/-! ## Claim theorems -/

/-- C1: for every configured cell, mapped input vector, and previous
state, `_sde_solver_drift` forms the sensory conductance activation and
the sensory reversal activation, reduces both along the input-feature
axis exactly once — the two reduced vectors are fixed arguments of the
iterated update, hence reused unchanged across all inner iterations —
and then applies the conductance-balance update
`v_pre := (cm_t * v_pre + gleak * vleak + sum(rev_activation) + sensory_numerator) /
(cm_t + gleak + sum(w_activation) + sensory_denominator)`
exactly `sde_solver_unfolds` times to `v_pre = states[0]`, returning the
final `v_pre`. -/
theorem drift_sensory_once_then_fixed_iterations {inS u : ℕ} (sig : ℚ → ℚ)
    (cfg : LTSCell inS u) (inputs : Fin inS → ℚ) (states : Tensor) :
    sde_solver_drift sig cfg inputs states
      = (conductance_update sig cfg (w_numerator_sensory sig cfg inputs)
          (w_denominator_sensory sig cfg inputs))^[cfg.sde_solver_unfolds]
          (statesRow0 u states) := by
  rw [sde_solver_drift, sde_solver_drift_vec, driftLoop_eq_iterate]

/-- C7: with the sub-step count set to `1`, the drift computation is a
single conductance-balance update of `v_pre` — one application of the
numerator/denominator formula, no iteration. -/
theorem single_unfold_single_update {inS u : ℕ} (sig : ℚ → ℚ)
    (cfg : LTSCell inS u) (inputs : Fin inS → ℚ) (states : Tensor)
    (hcnt : cfg.sde_solver_unfolds = 1) :
    sde_solver_drift sig cfg inputs states
      = conductance_update sig cfg (w_numerator_sensory sig cfg inputs)
          (w_denominator_sensory sig cfg inputs) (statesRow0 u states) := by
  rw [sde_solver_drift, sde_solver_drift_vec, hcnt, driftLoop, driftLoop]

/-- C7 witness: the concrete single-sub-step cell performs exactly one
update. -/
theorem single_unfold_single_update_witness :
    exampleCellOne.sde_solver_unfolds = 1
    ∧ sde_solver_drift exampleSig exampleCellOne exampleInput exampleState
        = conductance_update exampleSig exampleCellOne
            (w_numerator_sensory exampleSig exampleCellOne exampleInput)
            (w_denominator_sensory exampleSig exampleCellOne exampleInput)
            (statesRow0 1 exampleState) :=
  ⟨rfl, single_unfold_single_update exampleSig exampleCellOne exampleInput exampleState rfl⟩

/-- C8: the gating function computes the `[n × m]` matrix whose `(i, j)`
entry is `sigmoid (sigma i j * (v i - mu i j))` — the pre-activation
vector broadcast across the units dimension — and, over the reals with
the genuine logistic sigmoid, every entry lies strictly between `0`
and `1`. -/
theorem sigmoid_gate_formula_and_open_bounds {n m : ℕ} (v : Fin n → ℝ)
    (mu sigma : Fin n → Fin m → ℝ) (i : Fin n) (j : Fin m) :
    sigmoidGate realSigmoid v mu sigma i j = realSigmoid (sigma i j * (v i - mu i j))
    ∧ 0 < sigmoidGate realSigmoid v mu sigma i j
    ∧ sigmoidGate realSigmoid v mu sigma i j < 1 := by
  have he : 0 < Real.exp (-(sigma i j * (v i - mu i j))) := Real.exp_pos _
  refine ⟨rfl, ?_, ?_⟩
  · rw [sigmoidGate, realSigmoid]
    positivity
  · rw [sigmoidGate, realSigmoid]
    rw [div_lt_one (by linarith)]
    linarith

/-- C3: on a valid `[1, units]` state with the cell's unit step size,
`call` succeeds and the returned next state has the same shape as the
incoming state, namely `[1, units]`. -/
theorem step_preserves_state_shape {inS u : ℕ} (sig : ℚ → ℚ)
    (cs : CellState inS u) (inputs : Fin inS → ℚ) (st : Tensor)
    (hdt : cs.params.time_step = 1) (hsh : st.shape = [1, u])
    (hlen : st.data.length = u) :
    ∃ out next cs2, call sig cs inputs st = some ⟨out, next, cs2⟩
      ∧ next.shape = st.shape ∧ next.shape = [1, u] := by
  refine ⟨_, _, _, call_eq sig cs inputs st hdt hsh hlen, hsh.symm, rfl⟩

/-- C3 witness: concrete cell and `[1, 1]` state. -/
theorem step_preserves_state_shape_witness :
    exampleCellState.params.time_step = 1
    ∧ exampleState.shape = [1, 1]
    ∧ exampleState.data.length = 1
    ∧ ∃ out next cs2,
        call exampleSig exampleCellState exampleInput exampleState = some ⟨out, next, cs2⟩
          ∧ next.shape = exampleState.shape ∧ next.shape = [1, 1] :=
  ⟨rfl, rfl, rfl,
    step_preserves_state_shape exampleSig exampleCellState exampleInput exampleState rfl rfl rfl⟩

/-- C10: whenever `call` returns, the emitted output and the returned
next state are the same tensor. -/
theorem call_output_eq_next_state {inS u : ℕ} (sig : ℚ → ℚ)
    (cs : CellState inS u) (inputs : Fin inS → ℚ) (st : Tensor)
    (hdt : cs.params.time_step = 1) (hsh : st.shape = [1, u])
    (hlen : st.data.length = u) :
    ∃ out next cs2, call sig cs inputs st = some ⟨out, next, cs2⟩ ∧ out = next := by
  refine ⟨_, _, _, call_eq sig cs inputs st hdt hsh hlen, rfl⟩

/-- C10 witness: concrete cell and state. -/
theorem call_output_eq_next_state_witness :
    exampleCellState.params.time_step = 1
    ∧ exampleState.shape = [1, 1]
    ∧ exampleState.data.length = 1
    ∧ ∃ out next cs2,
        call exampleSig exampleCellState exampleInput exampleState = some ⟨out, next, cs2⟩
          ∧ out = next :=
  ⟨rfl, rfl, rfl,
    call_output_eq_next_state exampleSig exampleCellState exampleInput exampleState rfl rfl rfl⟩

/-- C4: with fixed parameters and the fixed pre-sampled noise vector,
repeated calls on the same `(input, state)` return identical results:
the first call returns a result triple, and calling again from the
resulting cell state returns exactly the same triple — there is no
per-call randomness in the forward computation. -/
theorem call_repeatable_deterministic {inS u : ℕ} (sig : ℚ → ℚ)
    (cs : CellState inS u) (inputs : Fin inS → ℚ) (st : Tensor)
    (hdt : cs.params.time_step = 1) (hsh : st.shape = [1, u])
    (hlen : st.data.length = u) :
    ∃ out next cs2, call sig cs inputs st = some ⟨out, next, cs2⟩
      ∧ call sig cs2 inputs st = some ⟨out, next, cs2⟩ := by
  refine ⟨_, _, _, call_eq sig cs inputs st hdt hsh hlen, ?_⟩
  rw [call_eq sig
    ⟨cs.params, some (cs.input_weights.getD fun _ => 1), some (cs.input_biases.getD fun _ => 0)⟩
    inputs st hdt hsh hlen]
  rfl

/-- C4 witness: concrete freshly built cell, input and state. -/
theorem call_repeatable_deterministic_witness :
    exampleCellState.params.time_step = 1
    ∧ exampleState.shape = [1, 1]
    ∧ exampleState.data.length = 1
    ∧ ∃ out next cs2,
        call exampleSig exampleCellState exampleInput exampleState = some ⟨out, next, cs2⟩
          ∧ call exampleSig cs2 exampleInput exampleState = some ⟨out, next, cs2⟩ :=
  ⟨rfl, rfl, rfl,
    call_repeatable_deterministic exampleSig exampleCellState exampleInput exampleState rfl rfl rfl⟩

/-- C9: a `call` on a built cell never mutates the learnable parameters
or the pre-sampled noise vector — the returned cell state carries the
parameters unchanged, and when the lazily created input-mapping
variables already exist the whole cell state is returned untouched —
and every integration sub-step of the solver uses the single stored
Brownian vector: the outer loop coincides with the general
noise-schedule loop run on the constant schedule. -/
theorem call_frame_params_and_fixed_noise {inS u : ℕ} (sig : ℚ → ℚ)
    (cs : CellState inS u) (inputs : Fin inS → ℚ) (st : Tensor)
    (hdt : cs.params.time_step = 1) (hsh : st.shape = [1, u])
    (hlen : st.data.length = u) :
    ∃ out next cs2, call sig cs inputs st = some ⟨out, next, cs2⟩
      ∧ cs2.params = cs.params
      ∧ (∀ w b, cs.input_weights = some w → cs.input_biases = some b → cs2 = cs)
      ∧ ∀ (ins : Fin inS → ℚ) (n : ℕ) (t : Tensor),
          em_loop sig cs.params ins n t
            = em_loop_noise sig cs.params ins (fun _ => cs.params.brownian_motion) n t := by
  refine ⟨_, _, _, call_eq sig cs inputs st hdt hsh hlen, rfl, ?_, ?_⟩
  · intro w b hw hb
    cases cs with
    | mk p iw ib =>
        simp only at hw hb
        rw [hw, hb]
        rfl
  · intro ins n t
    exact em_loop_eq_constant_noise sig cs.params ins n t

/-- C9 witness: concrete built cell, input and state. -/
theorem call_frame_params_and_fixed_noise_witness :
    exampleCellState.params.time_step = 1
    ∧ exampleState.shape = [1, 1]
    ∧ exampleState.data.length = 1
    ∧ ∃ out next cs2,
        call exampleSig exampleCellState exampleInput exampleState = some ⟨out, next, cs2⟩
          ∧ cs2.params = exampleCellState.params
          ∧ (∀ w b, exampleCellState.input_weights = some w →
              exampleCellState.input_biases = some b → cs2 = exampleCellState)
          ∧ ∀ (ins : Fin 1 → ℚ) (n : ℕ) (t : Tensor),
              em_loop exampleSig exampleCellState.params ins n t
                = em_loop_noise exampleSig exampleCellState.params ins
                    (fun _ => exampleCellState.params.brownian_motion) n t :=
  ⟨rfl, rfl, rfl,
    call_frame_params_and_fixed_noise exampleSig exampleCellState exampleInput exampleState
      rfl rfl rfl⟩

/-- C5: if every sensory weight and every recurrent weight is zero, each
inner conductance-balance iteration reduces to
`v_pre := (cm_t * v_pre + gleak * vleak) / (cm_t + gleak)`, the drift is
the corresponding pure leak-to-rest iterate, and the returned drift
value is independent of the input. -/
theorem zero_weights_leak_dynamics {inS u : ℕ} (sig : ℚ → ℚ)
    (cfg : LTSCell inS u) (inputs : Fin inS → ℚ) (states : Tensor)
    (hsW : cfg.sensory_W = fun _ _ => 0) (hW : cfg.W = fun _ _ => 0) :
    (∀ v : Fin u → ℚ,
        conductance_update sig cfg (w_numerator_sensory sig cfg inputs)
            (w_denominator_sensory sig cfg inputs) v
          = fun j => (cfg.cm_t j * v j + cfg.gleak j * cfg.vleak j)
              / (cfg.cm_t j + cfg.gleak j))
    ∧ sde_solver_drift sig cfg inputs states
        = (fun (v : Fin u → ℚ) j =>
            (cfg.cm_t j * v j + cfg.gleak j * cfg.vleak j)
              / (cfg.cm_t j + cfg.gleak j))^[cfg.sde_solver_unfolds]
            (statesRow0 u states)
    ∧ ∀ inputs2 : Fin inS → ℚ,
        sde_solver_drift sig cfg inputs states = sde_solver_drift sig cfg inputs2 states := by
  have hupd : ∀ (ins : Fin inS → ℚ) (v : Fin u → ℚ),
      conductance_update sig cfg (w_numerator_sensory sig cfg ins)
          (w_denominator_sensory sig cfg ins) v
        = fun j => (cfg.cm_t j * v j + cfg.gleak j * cfg.vleak j)
            / (cfg.cm_t j + cfg.gleak j) := by
    intro ins v
    funext j
    simp [conductance_update, w_numerator_sensory, w_denominator_sensory,
      sensory_w_activation, hsW, hW]
  have hdrift : ∀ ins : Fin inS → ℚ,
      sde_solver_drift sig cfg ins states
        = (fun (v : Fin u → ℚ) j =>
            (cfg.cm_t j * v j + cfg.gleak j * cfg.vleak j)
              / (cfg.cm_t j + cfg.gleak j))^[cfg.sde_solver_unfolds]
            (statesRow0 u states) := by
    intro ins
    rw [sde_solver_drift, sde_solver_drift_vec, driftLoop_eq_iterate]
    exact congrArg
      (fun f : (Fin u → ℚ) → Fin u → ℚ => f^[cfg.sde_solver_unfolds] (statesRow0 u states))
      (funext (hupd ins))
  exact ⟨hupd inputs, hdrift inputs,
    fun inputs2 => (hdrift inputs).trans (hdrift inputs2).symm⟩

/-- C5 witness: the concrete cell has zero weight matrices. -/
theorem zero_weights_leak_dynamics_witness :
    exampleCell.sensory_W = (fun _ _ => 0)
    ∧ exampleCell.W = (fun _ _ => 0)
    ∧ ((∀ v : Fin 1 → ℚ,
          conductance_update exampleSig exampleCell
              (w_numerator_sensory exampleSig exampleCell exampleInput)
              (w_denominator_sensory exampleSig exampleCell exampleInput) v
            = fun j => (exampleCell.cm_t j * v j + exampleCell.gleak j * exampleCell.vleak j)
                / (exampleCell.cm_t j + exampleCell.gleak j))
        ∧ sde_solver_drift exampleSig exampleCell exampleInput exampleState
            = (fun (v : Fin 1 → ℚ) j =>
                (exampleCell.cm_t j * v j + exampleCell.gleak j * exampleCell.vleak j)
                  / (exampleCell.cm_t j + exampleCell.gleak j))^[exampleCell.sde_solver_unfolds]
                (statesRow0 1 exampleState)
        ∧ ∀ inputs2 : Fin 1 → ℚ,
            sde_solver_drift exampleSig exampleCell exampleInput exampleState
              = sde_solver_drift exampleSig exampleCell inputs2 exampleState) :=
  ⟨rfl, rfl, zero_weights_leak_dynamics exampleSig exampleCell exampleInput exampleState rfl rfl⟩

/-- C6: the diffusion term is the constant `1.0` for every input and
state; hence with a zero noise vector each outer sub-step degenerates to
the deterministic Euler update `state + drift * time_step`. -/
theorem diffusion_constant_one_and_euler_degeneracy {inS u : ℕ} (sig : ℚ → ℚ)
    (cfg : LTSCell inS u) (inputs : Fin inS → ℚ) (v : Fin u → ℚ)
    (hbm : cfg.brownian_motion = fun _ => 0) :
    (∀ (ins : Fin inS → ℚ) (t : Tensor), sde_solver_diffusion ins t = 1)
    ∧ em_step_vec sig cfg inputs v
        = fun j => v j + sde_solver_drift_vec sig cfg inputs v j * cfg.time_step := by
  refine ⟨fun ins t => rfl, ?_⟩
  funext j
  rw [em_step_vec, hbm]
  simp [sde_solver_diffusion]

/-- C6 witness: the concrete cell has a zero Brownian vector. -/
theorem diffusion_constant_one_and_euler_degeneracy_witness :
    exampleCell.brownian_motion = (fun _ => 0)
    ∧ ((∀ (ins : Fin 1 → ℚ) (t : Tensor), sde_solver_diffusion ins t = 1)
        ∧ em_step_vec exampleSig exampleCell exampleInput (statesRow0 1 exampleState)
            = fun j => statesRow0 1 exampleState j
                + sde_solver_drift_vec exampleSig exampleCell exampleInput
                    (statesRow0 1 exampleState) j * exampleCell.time_step) :=
  ⟨rfl, diffusion_constant_one_and_euler_degeneracy exampleSig exampleCell exampleInput
    (statesRow0 1 exampleState) rfl⟩

/-- C2: the outer Euler–Maruyama stepper performs exactly
`sde_solver_unfolds` iterations of
`state := state + drift * time_step + diffusion * noise` (each followed
by the reshape), returning the state after the last one; the inner
conductance-balance update therefore runs exactly
`sde_solver_unfolds * sde_solver_unfolds` times per call — `36` at the
default sub-step count `6`, the single constant shared by the outer
stepper and the inner solve. -/
theorem euler_maruyama_outer_count_and_inner_square {inS u : ℕ} (sig : ℚ → ℚ)
    (cfg : LTSCell inS u) (inputs : Fin inS → ℚ) (st : Tensor)
    (hdt : cfg.time_step = 1) (hsh : st.shape = [1, u]) (hlen : st.data.length = u) :
    sde_solver_euler_maruyama sig cfg inputs st
      = some ⟨[1, u],
          List.ofFn ((em_step_vec sig cfg inputs)^[cfg.sde_solver_unfolds]
            (statesRow0 u st))⟩
    ∧ innerUpdateCount sig cfg inputs (statesRow0 u st)
        = cfg.sde_solver_unfolds * cfg.sde_solver_unfolds
    ∧ (cfg.sde_solver_unfolds = defaultUnfolds →
        innerUpdateCount sig cfg inputs (statesRow0 u st) = 36) := by
  have hcount : innerUpdateCount sig cfg inputs (statesRow0 u st)
      = cfg.sde_solver_unfolds * cfg.sde_solver_unfolds := by
    rw [innerUpdateCount, em_loop_counted_eq]
    simp
  refine ⟨sde_solver_euler_maruyama_eq sig cfg inputs st hdt hsh hlen, hcount, fun h6 => ?_⟩
  rw [hcount, h6]
  rfl

/-- C2 witness: concrete cell with the default sub-step count. -/
theorem euler_maruyama_outer_count_and_inner_square_witness :
    exampleCell.time_step = 1
    ∧ exampleState.shape = [1, 1]
    ∧ exampleState.data.length = 1
    ∧ (sde_solver_euler_maruyama exampleSig exampleCell exampleInput exampleState
        = some ⟨[1, 1],
            List.ofFn ((em_step_vec exampleSig exampleCell exampleInput)^[exampleCell.sde_solver_unfolds]
              (statesRow0 1 exampleState))⟩
      ∧ innerUpdateCount exampleSig exampleCell exampleInput (statesRow0 1 exampleState)
          = exampleCell.sde_solver_unfolds * exampleCell.sde_solver_unfolds
      ∧ (exampleCell.sde_solver_unfolds = defaultUnfolds →
          innerUpdateCount exampleSig exampleCell exampleInput (statesRow0 1 exampleState) = 36)) :=
  ⟨rfl, rfl, rfl,
    euler_maruyama_outer_count_and_inner_square exampleSig exampleCell exampleInput exampleState
      rfl rfl rfl⟩
